import Mathlib

/-!
Verification of the turtle build system (a Ninja clone) against its
natural-language specification.

The development shallowly embeds the core of the Rust sources:
  - src/compile.rs           (variable interpolation, module compilation)
  - src/ir/build.rs          (the Build IR and its id computation)
  - src/validation/build_graph.rs (the build graph, cycle detection)
  - src/run.rs               (the staleness decision of the runner)

External collaborators (the regex crate, petgraph, std DefaultHasher) are
modelled by their documented contracts; repository files that are declared
but not present in the source tree (compile/chain_map.rs,
compile/global_state.rs, compile/module_state.rs and the ir module files)
are modelled from the specification and from their use sites in
compile.rs, as marked in the doc comments below.
-/

namespace Turtle

/-- Modelled from the spec: ChainMap (src/compile/chain_map.rs is declared in
compile.rs but missing from the source tree).  Per spec section 4.1 it is an
ordered stack of key-to-value layers, newest first; get consults layers from
newest to oldest; insert writes into the newest layer only; fork pushes a new
empty top layer. A layer is modelled as an association list where insertion
prepends and lookup takes the first hit, so the newest insertion wins, which
is the overwrite semantics of a hash-map layer. -/
structure ChainMap (α β : Type) where
  layers : List (List (α × β))
deriving Repr

/-- An empty chain map with a single empty layer (ChainMap::new). -/
def ChainMap.empty {α β : Type} : ChainMap α β := ⟨[[]]⟩

/-- Lookup newest-to-oldest across layers, first hit within a layer. -/
def ChainMap.get {α β : Type} [DecidableEq α] (c : ChainMap α β) (k : α) : Option β :=
  c.layers.findSome? (fun layer => layer.lookup k)

/-- Insert into the newest layer only. -/
def ChainMap.set {α β : Type} (c : ChainMap α β) (k : α) (v : β) : ChainMap α β :=
  match c.layers with
  | [] => ⟨[[(k, v)]]⟩
  | top :: rest => ⟨((k, v) :: top) :: rest⟩

/-- Insert every pair in order (Extend::extend); later pairs overwrite. -/
def ChainMap.extendWith {α β : Type} (c : ChainMap α β) (l : List (α × β)) : ChainMap α β :=
  l.foldl (fun c p => c.set p.1 p.2) c

/-- Push a new empty top layer, yielding a child view whose writes do not
mutate ancestors. -/
def ChainMap.fork {α β : Type} (c : ChainMap α β) : ChainMap α β :=
  ⟨[] :: c.layers⟩

/-- First character of a variable name, the regex class [[:alpha:]_]
(ASCII-only in the regex crate, matching Lean's ASCII Char.isAlpha). -/
def isNameStart (c : Char) : Bool := c.isAlpha || c == '_'

/-- Subsequent characters of a variable name, the regex class [[:alnum:]_]. -/
def isNameChar (c : Char) : Bool := c.isAlphanum || c == '_'

/-- First pass of interpolate_variables (src/compile.rs line 216): the regex
crate's replace_all with the pattern of a dollar sign followed by a name
matched by [[:alpha:]_][[:alnum:]_]*, each match replaced by the scope lookup
of the captured name, or the empty string when absent.  The scan is left to
right; an unmatched dollar sign passes through and scanning resumes at the
next character; replacements are not rescanned. -/
def substPassF (vars : ChainMap String String) : Nat → List Char → List Char
  | 0, l => l
  | _ + 1, [] => []
  | fuel + 1, c :: rest =>
    if c = '$' then
      match rest with
      | [] => ['$']
      | c' :: rest' =>
        if isNameStart c' then
          let name := c' :: rest'.takeWhile isNameChar
          ((vars.get (String.mk name)).getD "").data
            ++ substPassF vars fuel (rest'.dropWhile isNameChar)
        else
          '$' :: substPassF vars fuel (c' :: rest')
    else c :: substPassF vars fuel rest

/-- The first pass at its canonical fuel.  Every step of substPassF consumes
at least one character, so fuel equal to the length of the input makes the
fuel bound unreachable. -/
def substPass (vars : ChainMap String String) (l : List Char) : List Char :=
  substPassF vars l.length l

/-- Second pass of interpolate_variables (src/compile.rs line 219):
str::replace of two consecutive dollar signs by one, non-overlapping, left to
right. -/
def dollarPass : List Char → List Char
  | [] => []
  | [c] => [c]
  | c :: c' :: rest =>
    if c = '$' ∧ c' = '$' then '$' :: dollarPass rest
    else c :: dollarPass (c' :: rest)

/-- interpolate_variables (src/compile.rs lines 214-220): replace_all of the
variable pattern against the scope, then replace of double dollar signs. -/
def interpolate_variables (template : String) (vars : ChainMap String String) : String :=
  String.mk (dollarPass (substPass vars template.data))

/-- The single left-to-right pass that the specification describes (spec
section 4.2, Variable interpolation): the token of two dollar signs yields one
dollar sign, the token of a dollar sign followed by a name is replaced by the
scope lookup, everything else passes through, and replacements are final.
This definition follows the words of the spec, for comparison with the
implementation interpolate_variables above. -/
def specSinglePassF (vars : ChainMap String String) : Nat → List Char → List Char
  | 0, l => l
  | _ + 1, [] => []
  | fuel + 1, c :: rest =>
    if c = '$' then
      match rest with
      | [] => ['$']
      | c' :: rest' =>
        if c' = '$' then '$' :: specSinglePassF vars fuel rest'
        else if isNameStart c' then
          let name := c' :: rest'.takeWhile isNameChar
          ((vars.get (String.mk name)).getD "").data
            ++ specSinglePassF vars fuel (rest'.dropWhile isNameChar)
        else '$' :: specSinglePassF vars fuel (c' :: rest')
    else c :: specSinglePassF vars fuel rest

/-- Interpolation as worded by the spec: a single pass. -/
def interpolate_spec (template : String) (vars : ChainMap String String) : String :=
  String.mk (specSinglePassF vars template.data.length template.data)

/-- A scope binding the name a to the value b, for the counterexample. -/
def c2Scope : ChainMap String String := ChainMap.empty.extendWith [("a", "b")]

/-- A scope binding the name a to a value consisting of two dollar signs. -/
def c2ScopeDollar : ChainMap String String := ChainMap.empty.extendWith [("a", "$$")]

/-- The Rule IR (src/ir/rule.rs is not present in the source tree; its shape
follows the spec, section 3, and the constructor calls Rule::new(command,
description) throughout compile.rs): an interpolated command string and an
optional description. -/
structure Rule where
  command : String
  description : Option String
deriving Repr, DecidableEq

/-- A 64-bit-truncating string hash standing in for std's DefaultHasher in
Build::calculate_id (src/ir/build.rs lines 68-75).  DefaultHasher is external
to the repository; what matters for the claims is that it is a deterministic
function of exactly the data fed to it, which this model is.  Hashing a
string slice feeds its length and bytes. -/
def hashString (h : Nat) (s : String) : Nat :=
  s.data.foldl (fun a c => (a * 31 + c.toNat + 1) % 2 ^ 64) ((h * 31 + s.length) % 2 ^ 64)

/-- Hashing a slice of strings feeds its length and then each element, as the
Hash instance for slices does. -/
def hashStringList (h : Nat) (l : List String) : Nat :=
  l.foldl hashString ((h * 31 + l.length) % 2 ^ 64)

/-- Build::calculate_id (src/ir/build.rs lines 68-75): hash the outputs
slice, then the implicit outputs slice, and print the final value in hex
(modelled as a decimal print; only injectivity-irrelevant formatting
differs). -/
def calculate_id (outputs implicit_outputs : List String) : String :=
  toString (hashStringList (hashStringList 0 outputs) implicit_outputs)

/-- The Build IR (src/ir/build.rs lines 7-18). -/
structure Build where
  id : String
  outputs : List String
  implicit_outputs : List String
  rule : Option Rule
  inputs : List String
  order_only_inputs : List String
  dynamic_module : Option String
deriving Repr, DecidableEq

/-- Build::new (src/ir/build.rs lines 21-38): the id is computed from the
outputs and implicit outputs only. -/
def Build.new (outputs implicit_outputs : List String) (rule : Option Rule)
    (inputs order_only_inputs : List String) (dynamic_module : Option String) : Build :=
  { id := calculate_id outputs implicit_outputs
    outputs := outputs
    implicit_outputs := implicit_outputs
    rule := rule
    inputs := inputs
    order_only_inputs := order_only_inputs
    dynamic_module := dynamic_module }

/-- BuildHash (src/build_hash.rs is not present in the source tree; per spec
section 3 it is the pair of the timestamp hash and the content hash, with
accessors timestamp() and content() used in run.rs). -/
structure BuildHash where
  timestamp : Nat
  content : Nat
deriving Repr, DecidableEq

/-- A trace of the externally visible effects of one run of the staleness
portion of spawn_build. -/
structure RunTrace where
  computed_content : Bool
  ran_command : Bool
  database : List (String × BuildHash)
deriving Repr, DecidableEq

/-- The staleness decision of spawn_build (src/run.rs lines 142-194), with
the I/O abstracted into its inputs: outputsExist is the conjunction of the
existence checks over outputs and implicit outputs, the database is the
explicit key-to-hash store read at the build's id, and the two hashes are
the values the hasher returns.  The control flow is translated branch for
branch: a timestamp match returns before the content hash is computed; a
content match returns without running the command; otherwise the command
runs exactly when the build has a rule, and the pair of hashes is written
under the build's id in every fall-through case. -/
def spawn_build_step (build : Build) (outputsExist : Bool)
    (db : List (String × BuildHash)) (timestamp_hash content_hash : Nat) : RunTrace :=
  let old_hash := db.lookup build.id
  if outputsExist ∧ (old_hash.map BuildHash.timestamp) = some timestamp_hash then
    { computed_content := false, ran_command := false, database := db }
  else if outputsExist ∧ (old_hash.map BuildHash.content) = some content_hash then
    { computed_content := true, ran_command := false, database := db }
  else
    { computed_content := true
      ran_command := build.rule.isSome
      database := (build.id, ⟨timestamp_hash, content_hash⟩) :: db }

/-- A sample build with a rule, for witnesses. -/
def sampleBuild : Build :=
  Build.new ["out"] [] (some ⟨"cc out", none⟩) ["src"] [] none

/-- The DynamicBuild IR (src/ir/dynamic_build.rs is not present in the source
tree; per spec section 3 it carries the implicit inputs discovered at build
time, and compile_dynamic constructs it from them while validate_dynamic and
run.rs read them through an inputs accessor). -/
structure DynamicBuild where
  inputs : List String
deriving Repr, DecidableEq

/-- The DynamicConfiguration output table (spec section 3: mapping output to
DynamicBuild), modelled as an association list. -/
abbrev DynamicConfiguration := List (String × DynamicBuild)

/-- The runner errors the claims mention (src/error.rs). -/
inductive RunError where
  | dynamicDependencyNotFound : Build → RunError
deriving Repr, DecidableEq

/-- The dynamic-input resolution of spawn_build (src/run.rs lines 123-131):
find_map over the build's outputs, in order, of the lookup in the dynamic
configuration's output table; the first hit supplies the dynamic inputs, and
DynamicDependencyNotFound is raised when no output of the build is in the
table. -/
def dynamic_inputs_lookup (build : Build) (config : DynamicConfiguration) :
    Except RunError (List String) :=
  match build.outputs.findSome? (fun output => config.lookup output) with
  | some dynamicBuild => .ok dynamicBuild.inputs
  | none => .error (.dynamicDependencyNotFound build)

/-- A build with the primary output a and the secondary output b. -/
def c5Build : Build := Build.new ["a", "b"] [] (some ⟨"cmd", none⟩) [] [] (some "mod")

/-- A dynamic-module table containing only the secondary output b. -/
def c5Config : DynamicConfiguration := [("b", ⟨["x"]⟩)]

/-- An AST rule (the ast module files are not present in the source tree; the
shape follows the use sites in compile.rs and its tests: ast::Rule::new(name,
command, description) with accessors name(), command(), description()). -/
structure AstRule where
  name : String
  command : String
  description : Option String
deriving Repr, DecidableEq

/-- An AST build statement (use sites in compile.rs and its tests:
ast::Build::new(outputs, implicit_outputs, rule, inputs, implicit_inputs,
order_only_inputs, variable_definitions)). -/
structure AstBuild where
  outputs : List String
  implicit_outputs : List String
  rule : String
  inputs : List String
  implicit_inputs : List String
  order_only_inputs : List String
  variable_definitions : List (String × String)
deriving Repr, DecidableEq

/-- The AST statements walked by compile_module (src/compile.rs lines
87-174). -/
inductive Statement where
  | build : AstBuild → Statement
  | defaultOutputs : List String → Statement
  | incl : String → Statement
  | rule : AstRule → Statement
  | submodule : String → Statement
  | variableDefinition : String → String → Statement
deriving Repr, DecidableEq

/-- A parsed module is its list of statements. -/
abbrev Module := List Statement

/-- The compilation context (src/compile.rs lines 31-36 and
resolve_dependency lines 201-212): the module map and, per module, the map
from submodule path literals to resolved module paths. -/
structure CompileContext where
  modules : List (String × Module)
  dependencies : List (String × List (String × String))
deriving Repr

/-- The global compilation state (src/compile/global_state.rs is not present
in the source tree; its fields outputs, default_outputs and source_map are
fixed by the struct literal in compile.rs lines 39-43).  The builds field is
a specification-only trace recording every Build IR constructed, mirroring
the Arc allocations of the source; it is written exactly where compile.rs
constructs a Build and read by nothing else. -/
structure GlobalState where
  outputs : List (String × Build)
  default_outputs : List String
  source_map : List (String × String)
  builds : List Build
deriving Repr, DecidableEq

/-- The per-module state (src/compile/module_state.rs is not present in the
source tree; its fields rules and variables are fixed by the struct literal
in compile.rs lines 44-47). -/
structure ModuleState where
  rules : ChainMap String AstRule
  vars : ChainMap String String

/-- Modelled from the spec: ModuleState::fork (module_state.rs is missing);
per spec section 4.1 a submodule forks both chain maps. -/
def ModuleState.fork (m : ModuleState) : ModuleState :=
  { rules := m.rules.fork, vars := m.vars.fork }

/-- CompileError (src/compile/error.rs is not present in the source tree;
per the spec, section 4.2, the compile errors are ModuleNotFound and
RuleNotFound).  fuelExhausted is an artifact of the embedding only: the
source recursion is unbounded and would not terminate on cyclic include
graphs, which the fuel bound cuts off. -/
inductive CompileError where
  | moduleNotFound : String → CompileError
  | ruleNotFound : String → CompileError
  | fuelExhausted : CompileError
deriving Repr, DecidableEq

/-- Inserting a list of pairs into an association map where the newest
insertion wins (HashMap::extend): prepend in order, so a later pair shadows
an earlier one under first-match lookup. -/
def assocExtend {β : Type} (map : List (String × β)) (l : List (String × β)) :
    List (String × β) :=
  l.foldl (fun map p => p :: map) map

/-- The variable scope of one build statement (src/compile.rs lines 90-101):
fork the module's variable scope, then extend it with the build's local
variable definitions followed by the reserved bindings in (explicit inputs
joined by single spaces) and out (outputs joined by single spaces). -/
def buildScope (m : ModuleState) (b : AstBuild) : ChainMap String String :=
  m.vars.fork.extendWith
    (b.variable_definitions ++
      [("in", String.intercalate " " b.inputs), ("out", String.intercalate " " b.outputs)])

/-- The Build IR produced for one build statement (src/compile.rs lines
103-128): a rule name equal to the reserved token phony yields no rule;
otherwise the rule is resolved from the rule scope (RuleNotFound when
absent) and its command and description are interpolated against the build
scope; the IR inputs are the explicit inputs followed by the implicit
inputs; the dynamic module is the reserved variable dyndep of the build
scope. -/
def ruleForBuild (m : ModuleState) (b : AstBuild) : Except CompileError (Option Rule) :=
  if b.rule = "phony" then .ok none
  else
    match m.rules.get b.rule with
    | none => .error (.ruleNotFound b.rule)
    | some rule =>
      .ok (some ⟨interpolate_variables rule.command (buildScope m b),
        rule.description.map (fun d => interpolate_variables d (buildScope m b))⟩)

/-- The Build IR construction continued: the IR inputs are the explicit
inputs followed by the implicit inputs, and the dynamic module is the
reserved variable dyndep of the build scope. -/
def compileBuildIr (m : ModuleState) (b : AstBuild) : Except CompileError Build :=
  match ruleForBuild m b with
  | .error e => .error e
  | .ok rule =>
    .ok (Build.new b.outputs b.implicit_outputs rule (b.inputs ++ b.implicit_inputs)
      b.order_only_inputs ((buildScope m b).get "dyndep"))

/-- resolve_dependency (src/compile.rs lines 201-212). -/
def resolve_dependency (ctx : CompileContext) (module_path submodule_path : String) :
    Except CompileError String :=
  match ctx.dependencies.lookup module_path with
  | none => .error (.moduleNotFound module_path)
  | some deps =>
    match deps.lookup submodule_path with
    | none => .error (.moduleNotFound submodule_path)
    | some resolved => .ok resolved

/-- The statement walk of compile_module (src/compile.rs lines 87-174),
parameterized over the compiler used for nested modules so that the
recursion is structural in the statement list.  A build statement records
its IR under every output and implicit-output key and, when the build scope
binds srcdep, records each output in the source map; a default statement
extends the default outputs; an include compiles the resolved module with
the current scope and keeps its state; a rule definition writes the rule
scope; a submodule compiles the resolved module with a forked scope, whose
module state is discarded; a variable definition writes the variable
scope. -/
def stmtsGo (ctx : CompileContext)
    (sub : GlobalState → ModuleState → String → Except CompileError (GlobalState × ModuleState))
    (path : String) :
    GlobalState → ModuleState → Module → Except CompileError (GlobalState × ModuleState)
  | g, m, [] => .ok (g, m)
  | g, m, stmt :: rest =>
    match stmt with
    | .build b =>
      match compileBuildIr m b with
      | .error e => .error e
      | .ok ir =>
        let outs := b.outputs ++ b.implicit_outputs
        let vars := buildScope m b
        let g :=
          { g with
            outputs := assocExtend g.outputs (outs.map (fun o => (o, ir)))
            source_map :=
              match vars.get "srcdep" with
              | some source => assocExtend g.source_map (outs.map (fun o => (o, source)))
              | none => g.source_map
            builds := g.builds ++ [ir] }
        stmtsGo ctx sub path g m rest
    | .defaultOutputs outs =>
      stmtsGo ctx sub path { g with default_outputs := g.default_outputs ++ outs } m rest
    | .incl p =>
      match resolve_dependency ctx path p with
      | .error e => .error e
      | .ok resolved =>
        match sub g m resolved with
        | .error e => .error e
        | .ok (g, m) => stmtsGo ctx sub path g m rest
    | .rule r =>
      stmtsGo ctx sub path g { m with rules := m.rules.set r.name r } rest
    | .submodule p =>
      match resolve_dependency ctx path p with
      | .error e => .error e
      | .ok resolved =>
        match sub g m.fork resolved with
        | .error e => .error e
        | .ok (g, _) => stmtsGo ctx sub path g m rest
    | .variableDefinition name value =>
      stmtsGo ctx sub path g { m with vars := m.vars.set name value } rest

/-- compile_module (src/compile.rs lines 75-177): look the module up (error
ModuleNotFound when absent) and walk its statements; nested modules are
compiled with one unit of fuel less.  The fuel bound models the otherwise
unbounded recursion of the source through includes and submodules. -/
def compileModule (ctx : CompileContext) : Nat → GlobalState → ModuleState → String →
    Except CompileError (GlobalState × ModuleState)
  | 0, _g, _m, path =>
    match ctx.modules.lookup path with
    | none => .error (.moduleNotFound path)
    | some _ => .error .fuelExhausted
  | fuel + 1, g, m, path =>
    match ctx.modules.lookup path with
    | none => .error (.moduleNotFound path)
    | some stmts => stmtsGo ctx (compileModule ctx fuel) path g m stmts

/-- The statement walk at a given fuel level: nested modules are compiled by
compileModule at that fuel. -/
def compileStmts (ctx : CompileContext) (fuel : Nat) (path : String) (g : GlobalState)
    (m : ModuleState) (stmts : Module) : Except CompileError (GlobalState × ModuleState) :=
  stmtsGo ctx (compileModule ctx fuel) path g m stmts

/-- The Configuration IR (spec section 3; constructed in src/compile.rs
lines 63-72).  The builds field is the specification-only trace carried
through from GlobalState. -/
structure Configuration where
  outputs : List (String × Build)
  default_outputs : List String
  source_map : List (String × String)
  build_directory : Option String
  builds : List Build
deriving Repr, DecidableEq, Inhabited

/-- compile (src/compile.rs lines 31-73): compile the root module from empty
state; the default outputs fall back to every output key when no default
statement appeared; the build directory is the module-level reserved
variable builddir. -/
def compile (ctx : CompileContext) (fuel : Nat) (root_module_path : String) :
    Except CompileError Configuration :=
  let g : GlobalState := { outputs := [], default_outputs := [], source_map := [], builds := [] }
  let m : ModuleState := { rules := ChainMap.empty, vars := ChainMap.empty }
  match compileModule ctx fuel g m root_module_path with
  | .error e => .error e
  | .ok (g, m) =>
    let default_outputs :=
      if g.default_outputs.isEmpty then g.outputs.map Prod.fst else g.default_outputs
    .ok
      { outputs := g.outputs
        default_outputs := default_outputs
        source_map := g.source_map
        build_directory := m.vars.get "builddir"
        builds := g.builds }

/-- A module state binding the rule foo with the command of the in
variable. -/
def c7State : ModuleState :=
  { rules := ChainMap.empty.set "foo" ⟨"foo", "$in", none⟩, vars := ChainMap.empty }

/-- The build statement bar with explicit input baz and implicit input
qux. -/
def c7Build : AstBuild := ⟨["bar"], [], "foo", ["baz"], ["qux"], [], []⟩

/-- The module map of the submodule scenario: the root defines x to be 42
and the rule foo with the command of the x variable, then compiles the
submodule (which redefines x to be 13), then declares the build bar with
rule foo. -/
def c6Ctx : CompileContext :=
  { modules :=
      [("root",
        [Statement.variableDefinition "x" "42",
         Statement.rule ⟨"foo", "$x", none⟩,
         Statement.submodule "sub",
         Statement.build ⟨["bar"], [], "foo", [], [], [], []⟩]),
       ("sub", [Statement.variableDefinition "x" "13"])]
    dependencies := [("root", [("sub", "sub")])] }

/-- The output and implicit-output keys one build statement records. -/
def outsOf (B : Build) : List String := B.outputs ++ B.implicit_outputs

/-- The association-list block a build statement prepends to the outputs
map: its keys in reverse, each bound to the shared Build value. -/
def blockOf (B : Build) : List (String × Build) :=
  ((outsOf B).map (fun o => (o, B))).reverse

/-- The outputs map accumulated by a chronological list of builds: newest
block first. -/
def blocksJoin (builds : List Build) : List (String × Build) :=
  ((builds.map blockOf).reverse).join

/-- The outputs map and the build trace evolve together: a compilation step
appends newly constructed builds to the trace and prepends exactly their
blocks to the outputs map. -/
def Ext (g g' : GlobalState) : Prop :=
  ∃ nb, g'.builds = g.builds ++ nb ∧ g'.outputs = blocksJoin nb ++ g.outputs

/-- The module map of the shared-output counterexample: two phony build
statements both declare the output a; the second also has the input i, so
the two IR values differ. -/
def c4Ctx : CompileContext :=
  { modules :=
      [("root",
        [Statement.build ⟨["a"], [], "phony", [], [], [], []⟩,
         Statement.build ⟨["a"], [], "phony", ["i"], [], [], []⟩])]
    dependencies := [("root", [])] }

/-- The IR of the first build statement of the counterexample. -/
def c4B1 : Build := Build.new ["a"] [] none [] [] none

/-- The configuration the counterexample compiles to. -/
def c4Cfg : Configuration :=
  match compile c4Ctx 1 "root" with
  | .ok cfg => cfg
  | .error _ => default

/-- The module map of the amended-claim witness: two builds with disjoint
outputs, the second with the implicit output c. -/
def c4WCtx : CompileContext :=
  { modules :=
      [("root",
        [Statement.build ⟨["a"], [], "phony", [], [], [], []⟩,
         Statement.build ⟨["b"], ["c"], "phony", [], [], [], []⟩])]
    dependencies := [("root", [])] }

/-- The configuration the witness compiles to. -/
def c4WCfg : Configuration :=
  match compile c4WCtx 1 "root" with
  | .ok cfg => cfg
  | .error _ => default

/-- The validation error (src/validation/error.rs is not present in the
source tree; per the spec, section 7, the validation error is
CircularBuildDependency carrying the node paths). -/
inductive ValidationError where
  | circularBuildDependency : List String → ValidationError
deriving Repr, DecidableEq

/-- The build graph (src/validation/build_graph.rs lines 11-16): the
petgraph node weights in insertion order, the edges as pairs of weights (an
edge from an output to one of its inputs), and the primary-outputs table.
The petgraph node-index indirection through the nodes hash map is collapsed
by identifying nodes with their weights. -/
structure BuildGraph where
  nodes : List String
  edges : List (String × String)
  primary_outputs : List (String × String)
deriving Repr, DecidableEq

/-- add_node (src/validation/build_graph.rs lines 87-92): insert the node
unless present. -/
def BuildGraph.add_node (g : BuildGraph) (n : String) : BuildGraph :=
  if n ∈ g.nodes then g else { g with nodes := g.nodes ++ [n] }

/-- add_edge (src/validation/build_graph.rs lines 79-85): ensure both
endpoints then append the edge. -/
def BuildGraph.add_edge (g : BuildGraph) (output input : String) : BuildGraph :=
  let g := g.add_node output
  let g := g.add_node input
  { g with edges := g.edges ++ [(output, input)] }

/-- One iteration of BuildGraph::new (src/validation/build_graph.rs lines
26-40): edges from the output to every input and order-only input; when the
key is the build's first output, record it as its own primary and, for every
following explicit output, an edge from the secondary to the primary and a
table entry from the secondary to the primary. -/
def BuildGraph.newEntry (g : BuildGraph) (output : String) (build : Build) : BuildGraph :=
  let g := (build.inputs ++ build.order_only_inputs).foldl
    (fun g input => g.add_edge output input) g
  if build.outputs.head? = some output then
    let g := { g with primary_outputs := (output, output) :: g.primary_outputs }
    (build.outputs.drop 1).foldl
      (fun g secondary =>
        let g := g.add_edge secondary output
        { g with primary_outputs := (secondary, output) :: g.primary_outputs })
      g
  else g

/-- BuildGraph::new (src/validation/build_graph.rs lines 19-43): fold over
the outputs map. -/
def BuildGraph.new (outputs : List (String × Build)) : BuildGraph :=
  outputs.foldl (fun g p => BuildGraph.newEntry g p.1 p.2) ⟨[], [], []⟩

/-- The successors of a node along the edge list. -/
def successors (edges : List (String × String)) (n : String) : List String :=
  (edges.filter (fun e => e.1 = n)).map Prod.snd

/-- One breadth step of reachability: the set together with all successors
of its members. -/
def reachStep (edges : List (String × String)) (s : List String) : List String :=
  (s ++ s.bind (successors edges)).dedup

/-- Iterated reachability from a start set. -/
def reachSet (edges : List (String × String)) : Nat → List String → List String
  | 0, s => s
  | fuel + 1, s => reachSet edges fuel (reachStep edges s)

/-- Whether b is reachable from a along at least one edge; the fuel exceeds
any simple path length. -/
def reachesB (g : BuildGraph) (a b : String) : Bool :=
  (reachSet g.edges (g.nodes.length + g.edges.length + 1) (successors g.edges a)).contains b

/-- The toposort contract of petgraph (an external library): an Err carrying
an offending node exactly when the graph has a cycle; modelled as the first
node, in insertion order, that reaches itself along at least one edge. -/
def toposortCycle (g : BuildGraph) : Option String :=
  g.nodes.find? (fun n => reachesB g n n)

/-- Two nodes are in the same strongly connected component: equal, or
mutually reachable. -/
def mutualReachB (g : BuildGraph) (a b : String) : Bool :=
  a == b || (reachesB g a b && reachesB g b a)

/-- The strongly connected component of a node, in node insertion order. -/
def sccComponent (g : BuildGraph) (n : String) : List String :=
  g.nodes.filter (mutualReachB g n)

/-- The component list of the kosaraju_scc contract of petgraph (an
external library): the strongly connected components, each listed once. -/
def sccComponentsGo (g : BuildGraph) : List String → List String → List (List String)
  | [], _ => []
  | n :: rest, covered =>
    if n ∈ covered then sccComponentsGo g rest covered
    else sccComponent g n :: sccComponentsGo g rest (covered ++ sccComponent g n)

/-- All strongly connected components of the graph. -/
def sccComponents (g : BuildGraph) : List (List String) :=
  sccComponentsGo g g.nodes []

/-- A stable insertion of a component into a size-sorted component list
(slice sort_by_key of the source, line 49). -/
def insertByLen (x : List String) : List (List String) → List (List String)
  | [] => [x]
  | y :: ys => if x.length < y.length then x :: y :: ys else y :: insertByLen x ys

/-- Sorting the component list by ascending size. -/
def sortByLen (l : List (List String)) : List (List String) :=
  l.foldr insertByLen []

/-- BuildGraph::validate (src/validation/build_graph.rs lines 45-64): a
topological sort; on failure, compute the strongly connected components,
sort them by size, and report the first component of the reversed
(descending) order that contains the offending node; the source unwraps the
find, modelled by a default of the empty list. -/
def BuildGraph.validate (g : BuildGraph) : Except ValidationError Unit :=
  match toposortCycle g with
  | none => .ok ()
  | some node =>
    .error (.circularBuildDependency
      (((sortByLen (sccComponents g)).reverse.find? (fun comp => comp.contains node)).getD []))

/-- The inner loop of validate_dynamic (src/validation/build_graph.rs lines
70-74): for each implicit input of the dynamic build, an edge from the
primary of the dynamic output to the input.  The primary-outputs table is
indexed unguardedly once per input; the index panic is modelled as none. -/
def addDynamicEntry (g : BuildGraph) (output : String) : List String → Option BuildGraph
  | [] => some g
  | input :: rest =>
    match g.primary_outputs.lookup output with
    | none => none
    | some primary => addDynamicEntry (g.add_edge primary input) output rest

/-- The outer loop of validate_dynamic over the dynamic configuration's
output table. -/
def addDynamicEdges (g : BuildGraph) : DynamicConfiguration → Option BuildGraph
  | [] => some g
  | (output, dynamicBuild) :: rest =>
    match addDynamicEntry g output dynamicBuild.inputs with
    | none => none
    | some g => addDynamicEdges g rest

/-- BuildGraph::validate_dynamic (src/validation/build_graph.rs lines
66-77): add the dynamic edges, then re-run validate; none models the panic
of the unguarded table index. -/
def BuildGraph.validate_dynamic (g : BuildGraph) (config : DynamicConfiguration) :
    Option (Except ValidationError BuildGraph) :=
  match addDynamicEdges g config with
  | none => none
  | some g =>
    some
      (match g.validate with
      | .ok _ => .ok g
      | .error e => .error e)

/-- The self-loop build: its output is also its own input. -/
def selfLoopBuild : Build := Build.new ["foo"] [] (some ⟨"", none⟩) ["foo"] [] none

/-- The build of the C10 panic scenario: the explicit output a and the
implicit output b. -/
def c10Build : Build := Build.new ["a"] ["b"] (some ⟨"", none⟩) [] [] none

/-- C2 counterexample: the claim says interpolation is one left-to-right pass
in which a leading double dollar sign is consumed before the following name,
so that in the template of a double dollar sign followed by the name a the
name is not looked up, and a double dollar sign inside a substituted value is
left unchanged.  The code disagrees on both points: replace_all substitutes
the name after the first (unmatched) dollar sign, and the second pass
collapses double dollar signs inside substituted values. -/
theorem c2_interpolation_single_pass_counterexample :
    interpolate_variables "$$a" c2Scope = "$b" ∧
    interpolate_spec "$$a" c2Scope = "$a" ∧
    interpolate_variables "$a" c2ScopeDollar = "$" ∧
    interpolate_spec "$a" c2ScopeDollar = "$$" ∧
    ("$b" : String) ≠ "$a" ∧ ("$" : String) ≠ "$$" := by decide

/-- C2 amended: interpolation is two passes, not one.  The first pass
replaces every token of a dollar sign followed by a name with the scope
lookup of the name (a dollar sign immediately followed by another dollar
sign passes through this pass), and the second pass collapses every
remaining pair of consecutive dollar signs to one, including pairs
contributed by substituted values.  Consequently a double dollar sign not
followed by a name character still yields one dollar sign regardless of the
scope; in a template of a double dollar sign followed by a name the name is
looked up and the result is a dollar sign followed by the collapsed value;
and a double dollar sign inside a substituted value is collapsed to one
dollar sign. -/
theorem c2_interpolation_two_pass_amended :
    (∀ vars : ChainMap String String, interpolate_variables "$$" vars = "$") ∧
    (∀ vars : ChainMap String String,
      (interpolate_variables "$$a" vars).data =
        dollarPass ('$' :: ((vars.get "a").getD "").data)) ∧
    interpolate_variables "$a" c2ScopeDollar = "$" ∧
    (∀ (t : String) (vars : ChainMap String String),
      interpolate_variables t vars = String.mk (dollarPass (substPass vars t.data))) :=
  ⟨fun _ => rfl,
   fun vars => by
     have h1 : (interpolate_variables "$$a" vars).data
         = dollarPass ('$' :: (((vars.get "a").getD "").data ++ [])) := rfl
     simpa using h1,
   by decide, fun _ _ => rfl⟩

theorem substPassF_no_dollar (vars : ChainMap String String) (fuel : Nat) (l : List Char)
    (h : '$' ∉ l) : substPassF vars fuel l = l := by
  induction fuel generalizing l with
  | zero => rfl
  | succ n ih =>
    cases l with
    | nil => rfl
    | cons c rest =>
      have hc : c ≠ '$' := fun e => h (e ▸ List.mem_cons_self c rest)
      have hr : '$' ∉ rest := fun m => h (List.mem_cons_of_mem c m)
      simp [substPassF, hc, ih rest hr]

theorem dollarPass_no_dollar (l : List Char) (h : '$' ∉ l) : dollarPass l = l := by
  induction l using dollarPass.induct with
  | case1 => rfl
  | case2 c => rfl
  | case3 c c' rest hcc _ih =>
    exact absurd (hcc.1 ▸ List.mem_cons_self c _) h
  | case4 c c' rest hcc ih =>
    have hr : '$' ∉ c' :: rest := fun m => h (List.mem_cons_of_mem c m)
    have hc : c ≠ '$' := fun e => h (e ▸ List.mem_cons_self c _)
    simp [dollarPass, hcc, ih hr]

/-- C9: interpolation is the identity on every string containing no dollar
sign, for any variable scope. -/
theorem c9_interpolation_identity_without_dollar (s : String) (vars : ChainMap String String)
    (h : '$' ∉ s.data) : interpolate_variables s vars = s := by
  unfold interpolate_variables substPass
  rw [substPassF_no_dollar vars _ _ h, dollarPass_no_dollar _ h]

/-- Witness for C9 at a concrete dollar-free string and a nonempty scope. -/
theorem c9_interpolation_identity_witness :
    '$' ∉ ("abc xyz" : String).data ∧ interpolate_variables "abc xyz" c2Scope = "abc xyz" :=
  ⟨by decide, c9_interpolation_identity_without_dollar "abc xyz" c2Scope (by decide)⟩

/-- C8: a Build's id is a function of only its outputs and implicit outputs:
two Build values constructed with equal outputs and implicit outputs have
equal ids regardless of rule, inputs, order-only inputs, and dynamic
module. -/
theorem c8_build_id_depends_only_on_outputs
    (outputs implicit_outputs : List String)
    (rule₁ rule₂ : Option Rule) (inputs₁ inputs₂ : List String)
    (order₁ order₂ : List String) (dyn₁ dyn₂ : Option String) :
    (Build.new outputs implicit_outputs rule₁ inputs₁ order₁ dyn₁).id =
      (Build.new outputs implicit_outputs rule₂ inputs₂ order₂ dyn₂).id := rfl

/-- C1: the per-build staleness procedure.  If all outputs exist and the
timestamp hash equals the stored timestamp component, it succeeds without
computing the content hash, without running the command and without writing
the database; otherwise, if all outputs exist and the content hash equals
the stored content component, it succeeds without running the command and
without writing; otherwise the command runs exactly when the build has a
rule (a phony build skips it), and the pair of hashes is written to the
database under the build's id in both cases. -/
theorem c1_runner_staleness_procedure (build : Build) (outputsExist : Bool)
    (db : List (String × BuildHash)) (ts ch : Nat) :
    (outputsExist = true → (db.lookup build.id).map BuildHash.timestamp = some ts →
      spawn_build_step build outputsExist db ts ch =
        { computed_content := false, ran_command := false, database := db }) ∧
    (¬ (outputsExist = true ∧ (db.lookup build.id).map BuildHash.timestamp = some ts) →
      outputsExist = true → (db.lookup build.id).map BuildHash.content = some ch →
      spawn_build_step build outputsExist db ts ch =
        { computed_content := true, ran_command := false, database := db }) ∧
    (¬ (outputsExist = true ∧ (db.lookup build.id).map BuildHash.timestamp = some ts) →
      ¬ (outputsExist = true ∧ (db.lookup build.id).map BuildHash.content = some ch) →
      spawn_build_step build outputsExist db ts ch =
        { computed_content := true
          ran_command := build.rule.isSome
          database := (build.id, ⟨ts, ch⟩) :: db }) := by
  refine ⟨fun he hts => ?_, fun hn he hc => ?_, fun hnts hnc => ?_⟩
  · simp [spawn_build_step, he, hts]
  · simp only [spawn_build_step]
    rw [if_neg (by simpa [he] using fun h => hn ⟨he, h⟩), if_pos ⟨by simp [he], hc⟩]
  · simp only [spawn_build_step]
    rw [if_neg (by exact fun h => hnts ⟨by simp [h.1], h.2⟩),
      if_neg (by exact fun h => hnc ⟨by simp [h.1], h.2⟩)]

/-- Witness for C1: the three branches of the staleness procedure observed at
concrete inputs through the theorem. -/
theorem c1_runner_staleness_witness :
    spawn_build_step sampleBuild true [(sampleBuild.id, ⟨7, 9⟩)] 7 0 =
      { computed_content := false, ran_command := false,
        database := [(sampleBuild.id, ⟨7, 9⟩)] } ∧
    spawn_build_step sampleBuild true [(sampleBuild.id, ⟨7, 9⟩)] 8 9 =
      { computed_content := true, ran_command := false,
        database := [(sampleBuild.id, ⟨7, 9⟩)] } ∧
    spawn_build_step sampleBuild true [(sampleBuild.id, ⟨7, 9⟩)] 8 0 =
      { computed_content := true, ran_command := true,
        database := (sampleBuild.id, ⟨8, 0⟩) :: [(sampleBuild.id, ⟨7, 9⟩)] } :=
  ⟨(c1_runner_staleness_procedure sampleBuild true [(sampleBuild.id, ⟨7, 9⟩)] 7 0).1
      rfl (by decide),
   (c1_runner_staleness_procedure sampleBuild true [(sampleBuild.id, ⟨7, 9⟩)] 8 9).2.1
      (by decide) rfl (by decide),
   by
     have h :=
       (c1_runner_staleness_procedure sampleBuild true [(sampleBuild.id, ⟨7, 9⟩)] 8 0).2.2
         (by decide) (by decide)
     simpa [sampleBuild, Build.new] using h⟩

/-- C5 counterexample: the claim says the runner looks up the primary output
and fails with DynamicDependencyNotFound exactly when the primary output is
absent from the dynamic-module's table.  Here the primary output a is absent
from the table, yet the lookup succeeds through the secondary output b, so
the failure condition is not equivalent to the absence of the primary
output. -/
theorem c5_dynamic_lookup_counterexample :
    c5Build.outputs.head? = some "a" ∧
    c5Config.lookup "a" = none ∧
    dynamic_inputs_lookup c5Build c5Config = .ok ["x"] :=
  ⟨by decide, by decide, rfl⟩

/-- C5 amended: the runner looks up every explicit output of the build, in
declaration order, in the dynamic configuration's output table and takes the
dynamic inputs from the first output present; it fails with
DynamicDependencyNotFound exactly when none of the build's explicit outputs
is in the table. -/
theorem c5_dynamic_lookup_amended (build : Build) (config : DynamicConfiguration) :
    (dynamic_inputs_lookup build config = .error (.dynamicDependencyNotFound build) ↔
      ∀ o ∈ build.outputs, config.lookup o = none) ∧
    (∀ dynamicBuild, build.outputs.findSome? (fun output => config.lookup output) =
        some dynamicBuild →
      dynamic_inputs_lookup build config = .ok dynamicBuild.inputs) := by
  constructor
  · unfold dynamic_inputs_lookup
    cases h : build.outputs.findSome? (fun output => config.lookup output) with
    | none =>
      simp only [true_iff, reduceCtorEq]
      exact (List.findSome?_eq_none_iff).mp h
    | some d =>
      simp only [reduceCtorEq, false_iff]
      intro hall
      rw [List.findSome?_eq_none_iff.mpr hall] at h
      exact Option.noConfusion h
  · intro d hd
    unfold dynamic_inputs_lookup
    rw [hd]

/-- Witness for C5 amended: both parts observed at a concrete build and
table. -/
theorem c5_dynamic_lookup_amended_witness :
    (dynamic_inputs_lookup c5Build [] = .error (.dynamicDependencyNotFound c5Build)) ∧
    dynamic_inputs_lookup c5Build c5Config = .ok ["x"] :=
  ⟨(c5_dynamic_lookup_amended c5Build []).1.mpr (by decide),
   (c5_dynamic_lookup_amended c5Build c5Config).2 ⟨["x"]⟩ (by decide)⟩

theorem ChainMap.get_set {α β : Type} [DecidableEq α] (c : ChainMap α β) (k k' : α) (v : β) :
    (c.set k v).get k' = if k' = k then some v else c.get k' := by
  rcases c with ⟨layers⟩
  cases layers with
  | nil =>
    by_cases h : k' = k <;> simp [ChainMap.set, ChainMap.get, List.lookup, h]
  | cons top rest =>
    by_cases h : k' = k
    · simp [ChainMap.set, ChainMap.get, List.lookup, h]
    · simp [ChainMap.set, ChainMap.get, List.findSome?, List.lookup, beq_false_of_ne h, h]

theorem ChainMap.get_extendWith {α β : Type} [DecidableEq α] (c : ChainMap α β)
    (l : List (α × β)) (k : α) :
    (c.extendWith l).get k =
      match l.reverse.lookup k with
      | some v => some v
      | none => c.get k := by
  induction l generalizing c with
  | nil => simp [ChainMap.extendWith]
  | cons p rest ih =>
    have step : (c.extendWith (p :: rest)) = ((c.set p.1 p.2).extendWith rest) := rfl
    rw [step, ih]
    rw [List.reverse_cons, List.lookup_append]
    cases h : rest.reverse.lookup k with
    | some v => simp [h]
    | none =>
      by_cases hk : k = p.1
      · simp [h, List.lookup, hk, ChainMap.get_set]
      · simp [h, List.lookup, beq_false_of_ne hk, ChainMap.get_set, hk]

/-- C7: the reserved binding in of a build statement's interpolation scope
is the explicit inputs only, joined by single spaces, while the compiled
Build's inputs field is the explicit inputs followed by the implicit
inputs. -/
theorem c7_in_binding_explicit_inputs (m : ModuleState) (b : AstBuild) :
    (buildScope m b).get "in" = some (String.intercalate " " b.inputs) ∧
    ∀ ir, compileBuildIr m b = .ok ir → ir.inputs = b.inputs ++ b.implicit_inputs := by
  constructor
  · unfold buildScope
    rw [ChainMap.get_extendWith]
    simp [List.lookup]
  · intro ir h
    unfold compileBuildIr at h
    rcases hr : ruleForBuild m b with e | rule
    · rw [hr] at h; exact absurd h (by simp)
    · rw [hr] at h
      simp only [Except.ok.injEq] at h
      rw [← h]
      rfl

/-- Witness for C7: the in binding of a concrete build is its explicit input
only, while the IR inputs also carry the implicit input. -/
theorem c7_in_binding_witness :
    (buildScope c7State c7Build).get "in" = some "baz" ∧
    (Build.new ["bar"] [] (some ⟨"baz", none⟩) ["baz", "qux"] [] none).inputs =
      ["baz"] ++ ["qux"] :=
  ⟨(c7_in_binding_explicit_inputs c7State c7Build).1,
   (c7_in_binding_explicit_inputs c7State c7Build).2
     (Build.new ["bar"] [] (some ⟨"baz", none⟩) ["baz", "qux"] [] none) (by rfl)⟩

/-- C6: a submodule is compiled under a forked scope and the parent
continues with its own unchanged module state, so submodule definitions
neither leak nor overwrite parent bindings, while the fork reads every
binding of the parent; an include is compiled with the current scope and
its resulting state is kept, so its definitions persist.  The last conjunct
runs the submodule scenario: the submodule redefinition of x does not leak
and the build bar keeps the parent value 42. -/
theorem c6_submodule_forks_include_does_not :
    (∀ (ctx : CompileContext) (fuel : Nat) (path p : String) (g : GlobalState)
        (m : ModuleState) (rest : Module),
      compileStmts ctx fuel path g m (.submodule p :: rest) =
        match resolve_dependency ctx path p with
        | .error e => .error e
        | .ok resolved =>
          match compileModule ctx fuel g m.fork resolved with
          | .error e => .error e
          | .ok (g', _) => compileStmts ctx fuel path g' m rest) ∧
    (∀ (ctx : CompileContext) (fuel : Nat) (path p : String) (g : GlobalState)
        (m : ModuleState) (rest : Module),
      compileStmts ctx fuel path g m (.incl p :: rest) =
        match resolve_dependency ctx path p with
        | .error e => .error e
        | .ok resolved =>
          match compileModule ctx fuel g m resolved with
          | .error e => .error e
          | .ok (g', m') => compileStmts ctx fuel path g' m' rest) ∧
    (∀ (c : ChainMap String String) (k : String), c.fork.get k = c.get k) ∧
    (∀ (c : ChainMap String String) (k k' v : String),
      (c.fork.set k v).get k' = if k' = k then some v else c.get k') ∧
    (match compile c6Ctx 2 "root" with
      | .ok cfg => (cfg.outputs.lookup "bar").map Build.rule
      | .error _ => none) = some (some ⟨"42", none⟩) := by
  refine ⟨fun _ _ _ _ _ _ _ => rfl, fun _ _ _ _ _ _ _ => rfl, ?_, ?_, by decide⟩
  · intro c k
    simp [ChainMap.fork, ChainMap.get, List.findSome?, List.lookup]
  · intro c k k' v
    by_cases h : k' = k
    · simp [ChainMap.fork, ChainMap.set, ChainMap.get, List.findSome?, List.lookup, h]
    · simp [ChainMap.fork, ChainMap.set, ChainMap.get, List.findSome?, List.lookup,
        beq_false_of_ne h, h]

theorem Ext.rfl {g : GlobalState} : Ext g g :=
  ⟨[], by simp, by simp [blocksJoin]⟩

theorem Ext.of_eq {g g' : GlobalState} (hb : g'.builds = g.builds)
    (ho : g'.outputs = g.outputs) : Ext g g' :=
  ⟨[], by simp [hb], by simp [blocksJoin, ho]⟩

theorem blocksJoin_append (a b : List Build) :
    blocksJoin (a ++ b) = blocksJoin b ++ blocksJoin a := by
  simp [blocksJoin]

theorem Ext.trans {g g' g'' : GlobalState} (h1 : Ext g g') (h2 : Ext g' g'') : Ext g g'' := by
  obtain ⟨nb1, hb1, ho1⟩ := h1
  obtain ⟨nb2, hb2, ho2⟩ := h2
  exact ⟨nb1 ++ nb2, by simp [hb2, hb1], by simp [ho2, ho1, blocksJoin_append]⟩

theorem assocExtend_eq {β : Type} (map : List (String × β)) (l : List (String × β)) :
    assocExtend map l = l.reverse ++ map := by
  induction l generalizing map with
  | nil => simp [assocExtend]
  | cons p rest ih =>
    have : assocExtend map (p :: rest) = assocExtend (p :: map) rest := rfl
    rw [this, ih]
    simp

/-- The single-build extension: the build arm of the statement walk extends
the state by exactly the block of the constructed IR. -/
theorem Ext.build {g : GlobalState} (b : AstBuild) (ir : Build)
    (hir : ir.outputs = b.outputs) (hio : ir.implicit_outputs = b.implicit_outputs)
    (sm : List (String × String)) :
    Ext g
      { g with
        outputs :=
          assocExtend g.outputs ((b.outputs ++ b.implicit_outputs).map (fun o => (o, ir)))
        source_map := sm
        builds := g.builds ++ [ir] } := by
  refine ⟨[ir], by simp, ?_⟩
  simp only [assocExtend_eq, blocksJoin, blockOf, outsOf, hir, hio, List.map_cons,
    List.map_nil, List.reverse_cons, List.reverse_nil, List.nil_append, List.join,
    List.map_append, List.reverse_append, List.append_nil, List.append_assoc]
  simp [List.append_assoc]

theorem stmtsGo_ext (ctx : CompileContext)
    (sub : GlobalState → ModuleState → String → Except CompileError (GlobalState × ModuleState))
    (path : String)
    (hsub : ∀ g m p r, sub g m p = .ok r → Ext g r.1) :
    ∀ (stmts : Module) (g : GlobalState) (m : ModuleState) (r : GlobalState × ModuleState),
      stmtsGo ctx sub path g m stmts = .ok r → Ext g r.1 := by
  intro stmts
  induction stmts with
  | nil =>
    intro g m r h
    simp only [stmtsGo] at h
    cases h
    exact Ext.rfl
  | cons stmt rest ih =>
    intro g m r h
    cases stmt with
    | build b =>
      simp only [stmtsGo] at h
      cases hir : compileBuildIr m b with
      | error e => rw [hir] at h; exact absurd h (by simp)
      | ok ir =>
        rw [hir] at h
        have hext : ir.outputs = b.outputs ∧ ir.implicit_outputs = b.implicit_outputs := by
          unfold compileBuildIr at hir
          cases hr : ruleForBuild m b with
          | error e => rw [hr] at hir; exact absurd hir (by simp)
          | ok rule =>
            rw [hr] at hir
            simp only [Except.ok.injEq] at hir
            rw [← hir]
            exact ⟨rfl, rfl⟩
        exact (Ext.build b ir hext.1 hext.2 _).trans (ih _ _ _ h)
    | defaultOutputs outs =>
      simp only [stmtsGo] at h
      have h2 := ih _ _ _ h
      exact (Ext.of_eq rfl rfl).trans h2
    | incl p =>
      cases hres : resolve_dependency ctx path p with
      | error e => simp only [stmtsGo, hres] at h; exact absurd h (by simp)
      | ok resolved =>
        simp only [stmtsGo, hres] at h
        cases hs : sub g m resolved with
        | error e => simp only [hs] at h; exact absurd h (by simp)
        | ok gm =>
          obtain ⟨g', m'⟩ := gm
          simp only [hs] at h
          exact (hsub _ _ _ _ hs).trans (ih _ _ _ h)
    | rule rl =>
      simp only [stmtsGo] at h
      have h2 := ih _ _ _ h
      exact (Ext.of_eq rfl rfl).trans h2
    | submodule p =>
      cases hres : resolve_dependency ctx path p with
      | error e => simp only [stmtsGo, hres] at h; exact absurd h (by simp)
      | ok resolved =>
        simp only [stmtsGo, hres] at h
        cases hs : sub g m.fork resolved with
        | error e => simp only [hs] at h; exact absurd h (by simp)
        | ok gm =>
          obtain ⟨g', m'⟩ := gm
          simp only [hs] at h
          exact (hsub _ _ _ _ hs).trans (ih _ _ _ h)
    | variableDefinition name value =>
      simp only [stmtsGo] at h
      have h2 := ih _ _ _ h
      exact (Ext.of_eq rfl rfl).trans h2

theorem compileModule_ext (ctx : CompileContext) :
    ∀ (fuel : Nat) (g : GlobalState) (m : ModuleState) (path : String)
      (r : GlobalState × ModuleState),
      compileModule ctx fuel g m path = .ok r → Ext g r.1 := by
  intro fuel
  induction fuel with
  | zero =>
    intro g m path r h
    simp only [compileModule] at h
    cases hl : ctx.modules.lookup path <;> rw [hl] at h <;> exact absurd h (by simp)
  | succ n ih =>
    intro g m path r h
    simp only [compileModule] at h
    cases hl : ctx.modules.lookup path with
    | none => rw [hl] at h; exact absurd h (by simp)
    | some stmts =>
      rw [hl] at h
      exact stmtsGo_ext ctx (compileModule ctx n) path (fun g m p r => ih g m p r) stmts g m r h

/-- After a successful compilation, the outputs map is exactly the
concatenation of the blocks of the traced builds, newest first. -/
theorem compile_outputs_eq_blocks (ctx : CompileContext) (fuel : Nat) (root : String)
    (cfg : Configuration) (hc : compile ctx fuel root = .ok cfg) :
    cfg.outputs = blocksJoin cfg.builds := by
  cases hm : compileModule ctx fuel
      { outputs := [], default_outputs := [], source_map := [], builds := [] }
      { rules := ChainMap.empty, vars := ChainMap.empty } root with
  | error e => simp only [compile, hm] at hc; exact absurd hc (by simp)
  | ok gm =>
    obtain ⟨g, m⟩ := gm
    simp only [compile, hm, Except.ok.injEq] at hc
    obtain ⟨nb, hb, ho⟩ := compileModule_ext ctx fuel _ _ root (g, m) hm
    rw [← hc]
    simp only at hb ho
    simp [hb, ho]

theorem lookup_map_const (o : String) (B : Build) (l : List String) :
    List.lookup o (l.map (fun x => (x, B))) = if o ∈ l then some B else none := by
  induction l with
  | nil => simp [List.lookup]
  | cons x rest ih =>
    by_cases h : o = x
    · simp [List.lookup, h]
    · simp [List.lookup, beq_false_of_ne h, ih, h]

theorem lookup_blockOf (o : String) (B : Build) :
    List.lookup o (blockOf B) = if o ∈ outsOf B then some B else none := by
  unfold blockOf
  rw [← List.map_reverse, lookup_map_const]
  simp

theorem lookup_blocksJoin_none (o : String) (builds : List Build)
    (h : ∀ B ∈ builds, o ∉ outsOf B) : List.lookup o (blocksJoin builds) = none := by
  induction builds with
  | nil => simp [blocksJoin]
  | cons B rest ih =>
    have hstep : blocksJoin (B :: rest) = blocksJoin rest ++ blockOf B := by
      simp [blocksJoin]
    rw [hstep, List.lookup_append, ih (fun B' hB' => h B' (List.mem_cons_of_mem B hB'))]
    simp [lookup_blockOf, h B (List.mem_cons_self B rest)]

theorem lookup_blocksJoin (builds : List Build)
    (hdisj : ∀ B B', B ∈ builds → B' ∈ builds → B ≠ B' →
      ∀ o, o ∈ outsOf B → o ∉ outsOf B')
    (B : Build) (hB : B ∈ builds) (o : String) (ho : o ∈ outsOf B) :
    List.lookup o (blocksJoin builds) = some B := by
  induction builds with
  | nil => cases hB
  | cons B1 rest ih =>
    have hstep : blocksJoin (B1 :: rest) = blocksJoin rest ++ blockOf B1 := by
      simp [blocksJoin]
    rw [hstep, List.lookup_append]
    by_cases hex : ∃ B' ∈ rest, o ∈ outsOf B'
    · obtain ⟨B', hB', ho'⟩ := hex
      have hBB' : B' = B := by
        by_contra hne
        exact hdisj B B' hB (List.mem_cons_of_mem B1 hB') (fun e => hne e.symm) o ho ho'
      have hmem : B ∈ rest := hBB' ▸ hB'
      have hdisj' : ∀ Ba Bb, Ba ∈ rest → Bb ∈ rest → Ba ≠ Bb →
          ∀ x, x ∈ outsOf Ba → x ∉ outsOf Bb := fun Ba Bb ha hb =>
        hdisj Ba Bb (List.mem_cons_of_mem B1 ha) (List.mem_cons_of_mem B1 hb)
      rw [ih hdisj' hmem]
      rfl
    · push_neg at hex
      rw [lookup_blocksJoin_none o rest hex]
      have hB1 : B = B1 := by
        rcases List.mem_cons.mp hB with h1 | h1
        · exact h1
        · exact absurd ho (hex B h1)
      simp [lookup_blockOf, hB1 ▸ ho, hB1]

/-- C4 amended: provided that no two distinct compiled builds share an
output or implicit-output name (as when every such name is declared by at
most one build statement), the Configuration outputs map binds every output
and implicit output of every build to that same shared Build value.
Without the proviso a later build statement silently overwrites the keys of
an earlier one, as the counterexample shows. -/
theorem c4_outputs_map_amended (ctx : CompileContext) (fuel : Nat) (root : String)
    (cfg : Configuration) (hc : compile ctx fuel root = .ok cfg)
    (hdisj : ∀ B ∈ cfg.builds, ∀ B' ∈ cfg.builds, B ≠ B' →
      ∀ o ∈ outsOf B, o ∉ outsOf B') :
    ∀ B, B ∈ cfg.builds → ∀ o, o ∈ outsOf B → cfg.outputs.lookup o = some B := by
  intro B hB o ho
  rw [compile_outputs_eq_blocks ctx fuel root cfg hc]
  exact lookup_blocksJoin cfg.builds (fun Ba Bb ha hb => hdisj Ba ha Bb hb) B hB o ho

/-- C4 counterexample: the claim quantifies over every build with no
proviso, but when two build statements declare the same output the later
one overwrites the key, so the first build's output no longer maps to that
build. -/
theorem c4_outputs_map_counterexample :
    compile c4Ctx 1 "root" = .ok c4Cfg ∧
    c4B1 ∈ c4Cfg.builds ∧ "a" ∈ c4B1.outputs ∧
    c4Cfg.outputs.lookup "a" ≠ some c4B1 :=
  ⟨rfl, by decide, by decide, by decide⟩

/-- Witness for C4 amended: with disjoint outputs, the implicit output c of
the second build maps to that build. -/
theorem c4_outputs_map_amended_witness :
    c4WCfg.outputs.lookup "c" = some (Build.new ["b"] ["c"] none [] [] none) :=
  c4_outputs_map_amended c4WCtx 1 "root" c4WCfg rfl (by decide)
    (Build.new ["b"] ["c"] none [] [] none) (by decide) "c" (by decide)

theorem mem_insertByLen (x y : List String) (l : List (List String)) :
    y ∈ insertByLen x l ↔ y = x ∨ y ∈ l := by
  induction l with
  | nil => simp [insertByLen]
  | cons z zs ih =>
    by_cases h : x.length < z.length
    · simp [insertByLen, h]
    · simp [insertByLen, h, ih]
      tauto

theorem mem_sortByLen (y : List String) (l : List (List String)) :
    y ∈ sortByLen l ↔ y ∈ l := by
  induction l with
  | nil => simp [sortByLen]
  | cons z zs ih =>
    have : sortByLen (z :: zs) = insertByLen z (sortByLen zs) := rfl
    rw [this, mem_insertByLen]
    simp [ih]

theorem insertByLen_pairwise (x : List String) (l : List (List String))
    (h : l.Pairwise (fun a b => a.length ≤ b.length)) :
    (insertByLen x l).Pairwise (fun a b => a.length ≤ b.length) := by
  induction l with
  | nil => simp [insertByLen]
  | cons z zs ih =>
    rcases List.pairwise_cons.mp h with ⟨hz, hzs⟩
    by_cases hlt : x.length < z.length
    · rw [insertByLen, if_pos hlt]
      refine List.pairwise_cons.mpr ⟨?_, h⟩
      intro b hb
      rcases List.mem_cons.mp hb with hb | hb
      · exact hb ▸ Nat.le_of_lt hlt
      · exact Nat.le_trans (Nat.le_of_lt hlt) (hz b hb)
    · rw [insertByLen, if_neg hlt]
      refine List.pairwise_cons.mpr ⟨?_, ih hzs⟩
      intro b hb
      rcases (mem_insertByLen x b zs).mp hb with hb | hb
      · exact hb ▸ Nat.le_of_not_lt hlt
      · exact hz b hb

theorem sortByLen_pairwise (l : List (List String)) :
    (sortByLen l).Pairwise (fun a b => a.length ≤ b.length) := by
  induction l with
  | nil => simp [sortByLen]
  | cons z zs ih => exact insertByLen_pairwise z (sortByLen zs) ih

theorem find?_sorted_max (l : List (List String)) (p : List String → Bool)
    (comp : List String) (hs : l.Pairwise (fun a b => b.length ≤ a.length))
    (hf : l.find? p = some comp) :
    ∀ c ∈ l, p c = true → c.length ≤ comp.length := by
  induction l with
  | nil => cases hf
  | cons y ys ih =>
    rcases List.pairwise_cons.mp hs with ⟨hy, hys⟩
    by_cases hp : p y = true
    · rw [List.find?_cons_of_pos _ hp] at hf
      cases hf
      intro c hc _
      rcases List.mem_cons.mp hc with hc | hc
      · exact hc ▸ Nat.le_refl _
      · exact hy c hc
    · rw [List.find?_cons_of_neg _ (by simpa using hp)] at hf
      intro c hc hpc
      rcases List.mem_cons.mp hc with hc | hc
      · exact absurd (hc ▸ hpc) hp
      · exact ih hys hf c hc hpc

theorem mutualReachB_self (g : BuildGraph) (n : String) : mutualReachB g n n = true := by
  simp [mutualReachB]

theorem mem_sccComponent_self (g : BuildGraph) (n : String) (hn : n ∈ g.nodes) :
    n ∈ sccComponent g n := by
  simp [sccComponent, List.mem_filter, hn, mutualReachB_self]

theorem sccComponentsGo_cover (g : BuildGraph) :
    ∀ (remaining covered : List String) (n : String), n ∈ remaining → n ∈ g.nodes →
      n ∈ covered ∨ ∃ c ∈ sccComponentsGo g remaining covered, n ∈ c := by
  intro remaining
  induction remaining with
  | nil => intro covered n hn; cases hn
  | cons x rest ih =>
    intro covered n hn hg
    by_cases hx : x ∈ covered
    · rw [sccComponentsGo, if_pos hx]
      rcases List.mem_cons.mp hn with hn | hn
      · exact Or.inl (hn ▸ hx)
      · exact ih covered n hn hg
    · rw [sccComponentsGo, if_neg hx]
      rcases List.mem_cons.mp hn with hn | hn
      · exact Or.inr ⟨sccComponent g x, List.mem_cons_self _ _, hn ▸ mem_sccComponent_self g x (hn ▸ hg)⟩
      · rcases ih (covered ++ sccComponent g x) n hn hg with hc | ⟨c, hc, hnc⟩
        · rcases List.mem_append.mp hc with hc | hc
          · exact Or.inl hc
          · exact Or.inr ⟨sccComponent g x, List.mem_cons_self _ _, hc⟩
        · exact Or.inr ⟨c, List.mem_cons_of_mem _ hc, hnc⟩

theorem scc_cover (g : BuildGraph) (n : String) (hn : n ∈ g.nodes) :
    ∃ c ∈ sccComponents g, n ∈ c := by
  rcases sccComponentsGo_cover g g.nodes [] n hn hn with h | h
  · cases h
  · exact h

/-- C3: validation performs a topological sort; it succeeds exactly when the
sort finds no cycle, and on failure the reported CircularBuildDependency
lists exactly one strongly connected component: a component containing the
offending node whose size is maximal among all components containing it.  A
self-loop, a build whose output is also its own input, is reported as the
one-element component of that output. -/
theorem c3_cycle_component_reporting :
    (∀ g : BuildGraph, g.validate = .ok () ↔ toposortCycle g = none) ∧
    (∀ (g : BuildGraph) (comp : List String),
      g.validate = .error (.circularBuildDependency comp) →
      ∃ n, toposortCycle g = some n ∧ n ∈ comp ∧ comp ∈ sccComponents g ∧
        ∀ c ∈ sccComponents g, n ∈ c → c.length ≤ comp.length) ∧
    BuildGraph.validate (BuildGraph.new [("foo", selfLoopBuild)]) =
      .error (.circularBuildDependency ["foo"]) := by
  refine ⟨?_, ?_, by rfl⟩
  · intro g
    unfold BuildGraph.validate
    cases h : toposortCycle g with
    | none => simp
    | some n => simp
  · intro g comp hv
    unfold BuildGraph.validate at hv
    cases h : toposortCycle g with
    | none => rw [h] at hv; exact absurd hv (by simp)
    | some n =>
      rw [h] at hv
      simp only [Except.error.injEq, ValidationError.circularBuildDependency.injEq] at hv
      have hn : n ∈ g.nodes := List.mem_of_find?_eq_some h
      obtain ⟨c0, hc0, hnc0⟩ := scc_cover g n hn
      have hc0rev : c0 ∈ (sortByLen (sccComponents g)).reverse := by
        rw [List.mem_reverse, mem_sortByLen]
        exact hc0
      have hex : ∃ c ∈ (sortByLen (sccComponents g)).reverse, c.contains n = true :=
        ⟨c0, hc0rev, by simpa [List.elem_iff] using hnc0⟩
      obtain ⟨comp', hcomp'⟩ :=
        Option.isSome_iff_exists.mp (List.find?_isSome.mpr hex)
      have hcompeq : comp = comp' := by rw [← hv, hcomp']; rfl
      subst hcompeq
      refine ⟨n, rfl, ?_, ?_, ?_⟩
      · have := List.find?_some hcomp'
        simpa [List.elem_iff] using this
      · have := List.mem_of_find?_eq_some hcomp'
        rw [List.mem_reverse, mem_sortByLen] at this
        exact this
      · intro c hc hnc
        have hcrev : c ∈ (sortByLen (sccComponents g)).reverse := by
          rw [List.mem_reverse, mem_sortByLen]
          exact hc
        have hpair : ((sortByLen (sccComponents g)).reverse).Pairwise
            (fun a b => b.length ≤ a.length) := by
          rw [List.pairwise_reverse]
          exact sortByLen_pairwise (sccComponents g)
        exact find?_sorted_max _ _ comp hpair hcomp' c hcrev
          (by simpa [List.elem_iff] using hnc)

/-- Witness for C3: the reporting property observed at the self-loop
graph. -/
theorem c3_cycle_component_witness :
    ∃ n, toposortCycle (BuildGraph.new [("foo", selfLoopBuild)]) = some n ∧
      n ∈ ["foo"] ∧ ["foo"] ∈ sccComponents (BuildGraph.new [("foo", selfLoopBuild)]) ∧
      ∀ c ∈ sccComponents (BuildGraph.new [("foo", selfLoopBuild)]), n ∈ c →
        c.length ≤ ("foo" :: []).length :=
  c3_cycle_component_reporting.2.1 (BuildGraph.new [("foo", selfLoopBuild)]) ["foo"]
    c3_cycle_component_reporting.2.2

theorem add_node_primary (g : BuildGraph) (n : String) :
    (g.add_node n).primary_outputs = g.primary_outputs := by
  unfold BuildGraph.add_node
  split <;> rfl

theorem add_edge_primary (g : BuildGraph) (a b : String) :
    (g.add_edge a b).primary_outputs = g.primary_outputs := by
  unfold BuildGraph.add_edge
  simp [add_node_primary]

theorem foldl_add_edge_primary (output : String) (l : List String) (g : BuildGraph) :
    (l.foldl (fun g input => g.add_edge output input) g).primary_outputs =
      g.primary_outputs := by
  induction l generalizing g with
  | nil => rfl
  | cons x rest ih => rw [List.foldl_cons, ih, add_edge_primary]

theorem secondaries_fold_lookup (output : String) (l : List String) :
    ∀ (g : BuildGraph) (key primary : String),
      ((l.foldl
        (fun g secondary =>
          let g := g.add_edge secondary output
          { g with primary_outputs := (secondary, output) :: g.primary_outputs })
        g)).primary_outputs.lookup key = some primary →
      key ∈ l ∨ g.primary_outputs.lookup key = some primary := by
  induction l with
  | nil => intro g key primary h; exact Or.inr h
  | cons s rest ih =>
    intro g key primary h
    rw [List.foldl_cons] at h
    rcases ih _ key primary h with hmem | hlook
    · exact Or.inl (List.mem_cons_of_mem s hmem)
    · simp only [add_edge_primary, List.lookup] at hlook
      by_cases hk : key = s
      · exact Or.inl (hk ▸ List.mem_cons_self s rest)
      · rw [show (key == s) = false from beq_false_of_ne hk] at hlook
        exact Or.inr hlook

theorem newEntry_lookup (g : BuildGraph) (output : String) (build : Build)
    (key primary : String)
    (h : (BuildGraph.newEntry g output build).primary_outputs.lookup key = some primary) :
    key ∈ build.outputs ∨ g.primary_outputs.lookup key = some primary := by
  unfold BuildGraph.newEntry at h
  by_cases hp : build.outputs.head? = some output
  · rw [if_pos hp] at h
    rcases secondaries_fold_lookup output (build.outputs.drop 1) _ key primary h with
      hmem | hlook
    · exact Or.inl (List.mem_of_mem_drop hmem)
    · simp only [foldl_add_edge_primary, List.lookup] at hlook
      by_cases hk : key = output
      · refine Or.inl ?_
        subst hk
        cases houts : build.outputs with
        | nil => rw [houts] at hp; cases hp
        | cons o rest =>
          rw [houts] at hp
          simp only [List.head?] at hp
          cases hp
          exact List.mem_cons_self _ _
      · rw [show (key == output) = false from beq_false_of_ne hk] at hlook
        exact Or.inr hlook
  · rw [if_neg hp] at h
    rw [foldl_add_edge_primary] at h
    exact Or.inr h

theorem new_fold_lookup (entries : List (String × Build)) :
    ∀ (g : BuildGraph) (key primary : String),
      (entries.foldl (fun g p => BuildGraph.newEntry g p.1 p.2) g).primary_outputs.lookup
          key = some primary →
      (∃ e ∈ entries, key ∈ e.2.outputs) ∨ g.primary_outputs.lookup key = some primary := by
  induction entries with
  | nil => intro g key primary h; exact Or.inr h
  | cons e rest ih =>
    intro g key primary h
    rw [List.foldl_cons] at h
    rcases ih _ key primary h with ⟨e', he', hk⟩ | hlook
    · exact Or.inl ⟨e', List.mem_cons_of_mem e he', hk⟩
    · rcases newEntry_lookup g e.1 e.2 key primary hlook with hk | hlook
      · exact Or.inl ⟨e, List.mem_cons_self e rest, hk⟩
      · exact Or.inr hlook

theorem addDynamicEntry_some (output : String) (inputs : List String) :
    ∀ g : BuildGraph, (g.primary_outputs.lookup output).isSome = true →
      ∃ g', addDynamicEntry g output inputs = some g' ∧
        g'.primary_outputs = g.primary_outputs := by
  induction inputs with
  | nil => intro g _; exact ⟨g, rfl, rfl⟩
  | cons input rest ih =>
    intro g hg
    obtain ⟨p, hp⟩ := Option.isSome_iff_exists.mp hg
    obtain ⟨g', hg', hpres⟩ := ih (g.add_edge p input)
      (by rw [add_edge_primary]; exact hg)
    refine ⟨g', ?_, by rw [hpres, add_edge_primary]⟩
    rw [addDynamicEntry, hp]
    exact hg'

theorem addDynamicEdges_some (config : DynamicConfiguration) :
    ∀ g : BuildGraph,
      (∀ e ∈ config, (g.primary_outputs.lookup e.1).isSome = true) →
      ∃ g', addDynamicEdges g config = some g' := by
  induction config with
  | nil => intro g _; exact ⟨g, rfl⟩
  | cons e rest ih =>
    intro g hg
    obtain ⟨o, d⟩ := e
    obtain ⟨g1, hg1, hpres⟩ :=
      addDynamicEntry_some o d.inputs g (hg (o, d) (List.mem_cons_self _ _))
    obtain ⟨g', hg'⟩ := ih g1
      (fun e' he' => by rw [hpres]; exact hg e' (List.mem_cons_of_mem _ he'))
    refine ⟨g', ?_⟩
    rw [addDynamicEdges, hg1]
    exact hg'

/-- C10: validate_dynamic indexes the primary-outputs table unguardedly, so
it is total whenever every output key of the dynamic configuration is in the
table; the table is populated only with keys that are explicit outputs of
their build, so a dynamic output that is an implicit output (or not a
declared output at all) hits the unguarded index and the call panics (none)
instead of returning an error. -/
theorem c10_validate_dynamic_partiality :
    (∀ (outputs : List (String × Build)) (key primary : String),
      (BuildGraph.new outputs).primary_outputs.lookup key = some primary →
      ∃ e ∈ outputs, key ∈ e.2.outputs) ∧
    (∀ (g : BuildGraph) (config : DynamicConfiguration),
      (∀ e ∈ config, (g.primary_outputs.lookup e.1).isSome = true) →
      ∃ r, g.validate_dynamic config = some r) ∧
    BuildGraph.validate_dynamic (BuildGraph.new [("a", c10Build), ("b", c10Build)])
      [("b", ⟨["a"]⟩)] = none := by
  refine ⟨?_, ?_, by rfl⟩
  · intro outputs key primary h
    rcases new_fold_lookup outputs ⟨[], [], []⟩ key primary h with hk | hlook
    · exact hk
    · cases hlook
  · intro g config hg
    obtain ⟨g', hg'⟩ := addDynamicEdges_some config g hg
    refine ⟨(match g'.validate with | .ok _ => .ok g' | .error e => .error e), ?_⟩
    unfold BuildGraph.validate_dynamic
    rw [hg']

/-- Witness for C10: totality observed at a table that does contain the
dynamic output key. -/
theorem c10_validate_dynamic_witness :
    ∃ r, BuildGraph.validate_dynamic (BuildGraph.new [("a", c10Build), ("b", c10Build)])
      [("a", ⟨["x"]⟩)] = some r :=
  c10_validate_dynamic_partiality.2.1 (BuildGraph.new [("a", c10Build), ("b", c10Build)])
    [("a", ⟨["x"]⟩)] (by decide)

end Turtle

